import Mathlib

/-!
Verification development for `frescobaldi_app/musicview/editinplace.py`,
the Music View "Edit in Place" dialog of Frescobaldi.

The host document's text is modelled as a `List Char`; a `QTextCursor` is a
pair of absolute character offsets (`position`, `anchor`).  Blocks are the
newline-separated lines of the text.  Collaborating modules that are not part
of the given excerpt (`cursortools`, `cursordiff`, `indent`, `tokeniter`,
`tooltip`) are modelled from the specification's description of their
contracts; each such definition carries a doc comment starting with
`Modelled from the spec:`.  Qt toolkit primitives (QRect geometry, the
event/signal machinery) are embedded following their documented semantics.
-/

namespace EditInPlace

/-- A character that counts as leading indentation (space or tab). -/
def isIndentChar (c : Char) : Bool := c = ' ' || c = '\t'

/-- Absolute offset of the start of the block (line) containing offset `p`:
the number of characters up to and including the last newline before `p`. -/
def lineStart (t : List Char) (p : Nat) : Nat :=
  ((t.take p).reverse.dropWhile (fun c => c ≠ '\n')).length

/-- Absolute offset of the end of the block (line) containing offset `p`
(the position of the terminating newline, or the end of the text). -/
def lineEnd (t : List Char) (p : Nat) : Nat :=
  p + ((t.drop p).takeWhile (fun c => c ≠ '\n')).length

/-- Zero-based block (line) number of offset `p`: newlines before `p`. -/
def blockNumber (t : List Char) (p : Nat) : Nat :=
  (t.take p).countP (fun c => c = '\n')

/-- A `QTextCursor`: a position and an anchor, as absolute offsets.
When `position = anchor` there is no selection. -/
structure Cursor where
  position : Nat
  anchor : Nat
deriving Repr, DecidableEq

/-- The smaller end of the cursor's selection (`QTextCursor.selectionStart`). -/
def Cursor.selStart (c : Cursor) : Nat := min c.position c.anchor

/-- The larger end of the cursor's selection (`QTextCursor.selectionEnd`). -/
def Cursor.selEnd (c : Cursor) : Nat := max c.position c.anchor

/-- `c.selection().toPlainText()`: the text between anchor and position. -/
def selectionText (t : List Char) (c : Cursor) : List Char :=
  (t.take c.selEnd).drop c.selStart

/-- `c.block().position()`: the start offset of the cursor's block. -/
def Cursor.blockPosition (t : List Char) (c : Cursor) : Nat :=
  lineStart t c.position

/-- Modelled from the spec: `cursortools.strip_indent` (module `cursortools`,
not part of the excerpt) strips the leading indentation from the cursor's
line, leaving the cursor collapsed just after the indentation of its block. -/
def strip_indent (t : List Char) (c : Cursor) : Cursor :=
  let ls := lineStart t c.position
  let ind := ((t.drop ls).takeWhile isIndentChar).length
  ⟨ls + ind, ls + ind⟩

/-- `c.movePosition(QTextCursor.EndOfBlock, QTextCursor.KeepAnchor)`:
moves the position to the end of its block, keeping the anchor. -/
def moveEndOfBlockKeepAnchor (t : List Char) (c : Cursor) : Cursor :=
  ⟨lineEnd t c.position, c.anchor⟩

/-- Modelled from the spec: `tokeniter.state(cursor)` (module `tokeniter`,
not part of the excerpt) returns the tokenizer/highlighter state captured at
the start of the cursor's block; the per-position state assignment of the
host document is abstracted as `stateFn`. -/
def tokeniter_state {σ : Type} (stateFn : List Char → Nat → σ)
    (t : List Char) (c : Cursor) : σ :=
  stateFn t (lineStart t c.position)

/-- The scratch (private) document of the dialog: its text and its caret. -/
structure Scratch where
  text : List Char
  caret : Nat
deriving Repr, DecidableEq

/-- What one call to `Dialog.edit` computes: the saved tracked range
(`self._range`, mutated in place by the extraction), the contents of the
scratch document and its caret, and the initial highlighter state. -/
structure EditResult (σ : Type) where
  range : Cursor
  scratch : Scratch
  hlState : σ
deriving Repr

/-- The text-extraction part of `Dialog.edit(cursor)`, lines 84-97 of
`editinplace.py`: copy the cursor, compute its offset in the block, strip
the indentation, extend to the end of the block, load the selection into the
scratch document, capture the highlighter state at the original cursor, and
place the scratch caret at the original offset minus the indentation. -/
def editExtract {σ : Type} (stateFn : List Char → Nat → σ)
    (t : List Char) (cursor : Cursor) : EditResult σ :=
  let c0 : Cursor := cursor
  let cursorpos := c0.position - c0.blockPosition t
  let c1 := strip_indent t c0
  let indentpos := c1.position - c1.blockPosition t
  let c2 := moveEndOfBlockKeepAnchor t c1
  let scratchText := selectionText t c2
  let hl := tokeniter_state stateFn t cursor
  let caret := (max 0 ((cursorpos : Int) - (indentpos : Int))).toNat
  { range := c2, scratch := ⟨scratchText, caret⟩, hlState := hl }

/-! ### Saving back into the host document -/

/-- Modelled from the spec: `cursordiff.insert_text` (module `cursordiff`,
not part of the excerpt) replaces the cursor's selection with the new text
using a diff-based merge; content-wise the range's contents are replaced by
the new text, and the cursor is left collapsed at the end of the insertion. -/
def insert_text (t : List Char) (c : Cursor) (new : List Char) :
    List Char × Cursor :=
  let s := c.selStart
  let e := c.selEnd
  (t.take s ++ new ++ t.drop e, ⟨s + new.length, s + new.length⟩)

/-- The document mutation performed inside `Dialog.save`'s undo block:
diff-merge the scratch text over the tracked range, re-select from the
original range start to the end of the insertion, and re-apply automatic
indentation to that span.  `re_indent` (module `indent`, not part of the
excerpt) is kept abstract: it receives the text and the selected span. -/
def saveText (re_indent : List Char → Nat → Nat → List Char)
    (range : Cursor) (new : List Char) (t : List Char) : List Char :=
  let cursor : Cursor := range
  let start := cursor.selStart
  let r1 := insert_text t cursor new
  let c2 : Cursor := ⟨start, r1.2.anchor⟩
  re_indent r1.1 c2.selStart c2.selEnd

/-- A host document together with its undo history: each entry of
`undoStack` is the text before one undoable step. -/
structure UndoDoc where
  text : List Char
  undoStack : List (List Char)
deriving Repr, DecidableEq

/-- Modelled from the spec: `cursortools.compress_undo` (module
`cursortools`, not part of the excerpt) is a scoped undo-grouping
transaction: every mutation performed inside the scope is batched into one
single undoable step. -/
def compress_undo (f : List Char → List Char) (d : UndoDoc) : UndoDoc :=
  { text := f d.text, undoStack := d.text :: d.undoStack }

/-- Undo one step: restore the most recent undo entry. -/
def undoStep (d : UndoDoc) : UndoDoc :=
  match d.undoStack with
  | [] => d
  | t :: rest => ⟨t, rest⟩

/-- `Dialog.save`, lines 114-123 of `editinplace.py`: within one scoped
undo-grouping transaction over the host document, diff-merge the scratch
document's text into the tracked range and re-indent the committed span. -/
def Dialog.save (re_indent : List Char → Nat → Nat → List Char)
    (range : Cursor) (scratchText : List Char) (d : UndoDoc) : UndoDoc :=
  compress_undo (saveText re_indent range scratchText) d

/-! ### Geometry: `Dialog.popup` -/

/-- A point on the screen (`QPoint`). -/
structure QPoint where
  x : Int
  y : Int
deriving Repr, DecidableEq

/-- A rectangle (`QRect`), stored as its top-left corner and its size.
Following Qt, `bottom = top + height - 1`. -/
structure QRect where
  left : Int
  top : Int
  width : Int
  height : Int
deriving Repr, DecidableEq

/-- Qt's `QRect.bottom()`. -/
def QRect.bottom (r : QRect) : Int := r.top + r.height - 1

/-- Qt's `QRect.moveCenter(p)`: moves the rectangle so that its center (in
Qt's historical integer sense) is at `p`, keeping the size.  The C++ integer
division truncates toward zero, which is `Int.div`. -/
def QRect.moveCenter (r : QRect) (p : QPoint) : QRect :=
  { r with
    left := p.x - (r.width - 1).tdiv 2,
    top := p.y - (r.height - 1).tdiv 2 }

/-- Qt's `QRect.moveTop(y)`: places the top edge at `y`, keeping the size. -/
def QRect.moveTop (r : QRect) (y : Int) : QRect := { r with top := y }

/-- Qt's `QRect.moveBottom(y)`: places the bottom edge at `y`, keeping the
size (so the new top is `y - height + 1`). -/
def QRect.moveBottom (r : QRect) (y : Int) : QRect :=
  { r with top := y - r.height + 1 }

/-- The geometry computation of `Dialog.popup(position)`, lines 102-110 of
`editinplace.py`: center the dialog's geometry on `position`, then place the
top edge at `position.y + 60` when `position.y <= height + 60`, otherwise
place the bottom edge at `position.y - 60`. -/
def Dialog.popup (geometry : QRect) (position : QPoint) : QRect :=
  let geom := geometry.moveCenter position
  if position.y ≤ geom.height + 60 then
    geom.moveTop (position.y + 60)
  else
    geom.moveBottom (position.y - 60)

/-! ### `View.event` -/

/-- `View.event(ev)`, lines 157-161 of `editinplace.py`: when the event
matches the `QKeySequence.InsertLineSeparator` key combination, return
`False` without touching the scratch document; otherwise defer to the
standard plain-text edit surface (`super().event(ev)`), abstracted as
`superEvent`. -/
def View.event {ε : Type} (matchesILS : ε → Bool)
    (superEvent : ε → Scratch → Bool × Scratch)
    (ev : ε) (st : Scratch) : Bool × Scratch :=
  if matchesILS ev then (false, st)
  else superEvent ev st

/-! ### `Dialog.updateMessage` -/

/-- A host document: its display name and its text. -/
structure HostDoc where
  name : String
  text : List Char
deriving Repr, DecidableEq

/-- Modelled from the spec: `tooltip.get_definition` (module
`musicview.tooltip`, not part of the excerpt) is an abstract lookup `getDef`
from the host text and the tracked range to an optional definition label;
`variableLabel` is the `variable` argument of the message template, that is
`tooltip.get_definition(self._range) or _("<unknown>")` (Python `or`: the
placeholder is used when the lookup returns `None` or an empty string). -/
def variableLabel (getDef : List Char → Cursor → Option String)
    (t : List Char) (range : Cursor) : List Char :=
  match getDef t range with
  | some v => if v = "" then "<unknown>".data else v.data
  | none => "<unknown>".data

/-- The message set by `Dialog.updateMessage`, lines 125-135 of
`editinplace.py`: when a host document is set, the localized template
`Editing line {linenum} of "{document}" ({variable})` with the 1-based block
number of the tracked range, the host document's display name, and the
resolved definition label (or the unknown placeholder); otherwise the
defensive placeholder message. -/
def updateMessage (getDef : List Char → Cursor → Option String)
    (document : Option HostDoc) (range : Cursor) : List Char :=
  match document with
  | some d =>
      "Editing line ".data
        ++ (toString (blockNumber d.text range.position + 1)).data
        ++ " of \"".data ++ d.name.data ++ "\" (".data
        ++ variableLabel getDef d.text range ++ ")".data
  | none => "<no document set>".data

/-- `l` occurs contiguously inside `m`. -/
def InfixOf (l m : List Char) : Prop := ∃ u v, u ++ l ++ v = m

/-! ### The dialog state machine and the host-document close signal -/

/-- The result state of the dialog: still open and editing, accepted
(commits), or rejected (discards). -/
inductive DStatus where
  | editing
  | accepted
  | rejected
deriving Repr, DecidableEq

/-- The mutable state of one `Dialog` instance.  `document` is
`self._document` (the id of the tracked host document, `none` after
`__init__`, line 57); `connections` is the list of host-document ids whose
`closed` signal is connected to `self.reject` (signal connections are a
multiset; `edit` keeps it at most a singleton). -/
structure DialogState (σ : Type) where
  document : Option Nat
  connections : List Nat
  range : Cursor
  scratch : Scratch
  hlState : Option σ
  status : DStatus
deriving Repr

/-- The dialog as freshly constructed by `Dialog.__init__` (line 57 sets
`self._document = None`; no `closed` connection exists yet) and shown. -/
def initialDialog (σ : Type) : DialogState σ :=
  { document := none, connections := [], range := ⟨0, 0⟩,
    scratch := ⟨[], 0⟩, hlState := none, status := .editing }

/-- The whole system: the host documents (by id; `none` means the document
does not exist or has been closed) and the dialog. -/
structure Sys (σ : Type) where
  docs : Nat → Option HostDoc
  dlg : DialogState σ

/-- `Dialog.edit(cursor)` at the system level, lines 77-98 of
`editinplace.py`, for a cursor belonging to host document `d`: disconnect
the previous host document's `closed` listener if any, connect one for the
new host document, save the tracked range, extract the line into the scratch
document and position its caret.  The host documents and the caller's cursor
are returned as the call leaves them: the extraction works on copies of the
cursor and never mutates the host document. -/
def Dialog.editOn {σ : Type} (stateFn : List Char → Nat → σ)
    (s : Sys σ) (d : Nat) (cursor : Cursor) : Sys σ × Cursor :=
  match s.docs d with
  | none => (s, cursor)
  | some doc =>
      let dlg := s.dlg
      let conns :=
        (match dlg.document with
         | some old => dlg.connections.filter (fun x => x ≠ old)
         | none => dlg.connections) ++ [d]
      let r := editExtract stateFn doc.text cursor
      ({ s with
          dlg := { dlg with
            document := some d, connections := conns, range := r.range,
            scratch := r.scratch, hlState := some r.hlState } },
       cursor)

/-- Closing host document `d` externally: the document disappears and its
`closed` signal fires, running `self.reject` once for each connection from
that document to the dialog; `reject` moves an open (editing) dialog to
`rejected`. -/
def closeDocument {σ : Type} (s : Sys σ) (d : Nat) : Sys σ :=
  let docs' := fun i => if i = d then none else s.docs i
  let dlg := s.dlg
  let dlg' :=
    if d ∈ dlg.connections ∧ dlg.status = .editing
    then { dlg with status := .rejected }
    else dlg
  { docs := docs', dlg := dlg' }

/-- The user accepts the dialog: only an open (editing) dialog can be
accepted; `self.accepted` is connected to `self.save` (line 73), so the
scratch text is committed into the tracked host document via `saveText`. -/
def acceptDialog {σ : Type} (re_indent : List Char → Nat → Nat → List Char)
    (s : Sys σ) : Sys σ :=
  if s.dlg.status = .editing then
    let dlg' := { s.dlg with status := DStatus.accepted }
    match s.dlg.document with
    | some d =>
        match s.docs d with
        | some doc =>
            let doc' : HostDoc :=
              { doc with
                text := saveText re_indent s.dlg.range s.dlg.scratch.text
                          doc.text }
            { docs := fun i => if i = d then some doc' else s.docs i,
              dlg := dlg' }
        | none => { s with dlg := dlg' }
    | none => { s with dlg := dlg' }
  else s

/-! ### Helper lemmas about lines inside a text -/

/-- `line` is a complete line of `t`, preceded by `before` (which is empty
or ends with a newline) and followed by `after` (which is empty or starts
with the line's terminating newline). -/
structure LineAt (t before line after : List Char) : Prop where
  eq : before ++ line ++ after = t
  before_nl : before = [] ∨ ∃ b, before = b ++ ['\n']
  line_nl : '\n' ∉ line
  after_nl : after = [] ∨ ∃ a, after = '\n' :: a

theorem takeWhile_append_of_forall {α : Type} (p : α → Bool) (A B : List α)
    (h : ∀ x ∈ A, p x = true) :
    (A ++ B).takeWhile p = A ++ B.takeWhile p := by
  induction A with
  | nil => rfl
  | cons a A ih =>
      have ha : p a = true := h a (by simp)
      simp [List.takeWhile_cons, ha, ih fun x hx => h x (by simp [hx])]

theorem dropWhile_append_of_forall {α : Type} (p : α → Bool) (A B : List α)
    (h : ∀ x ∈ A, p x = true) :
    (A ++ B).dropWhile p = B.dropWhile p := by
  induction A with
  | nil => rfl
  | cons a A ih =>
      have ha : p a = true := h a (by simp)
      simp [List.dropWhile_cons, ha, ih fun x hx => h x (by simp [hx])]

theorem takeWhile_append_stops {α : Type} (p : α → Bool) (A B : List α)
    (hB : B = [] ∨ ∃ b B2, B = b :: B2 ∧ p b = false) :
    (A ++ B).takeWhile p = A.takeWhile p := by
  induction A with
  | nil =>
      rcases hB with rfl | ⟨b, B2, rfl, hb⟩
      · rfl
      · simp [List.takeWhile_cons, hb]
  | cons a A ih => simp [List.takeWhile_cons, ih]

theorem take_decomp (t before line after : List Char) (col : Nat)
    (ht : before ++ line ++ after = t) (hcol : col ≤ line.length) :
    t.take (before.length + col) = before ++ line.take col := by
  subst ht
  rw [List.append_assoc, List.take_append_eq_append_take,
    List.take_of_length_le (by omega),
    List.take_append_eq_append_take]
  have h1 : before.length + col - before.length = col := by omega
  have h2 : col - line.length = 0 := by omega
  rw [h1, h2]
  simp

theorem drop_decomp (t before line after : List Char) (col : Nat)
    (ht : before ++ line ++ after = t) (hcol : col ≤ line.length) :
    t.drop (before.length + col) = line.drop col ++ after := by
  subst ht
  rw [List.append_assoc, List.drop_append_eq_append_drop,
    List.drop_of_length_le (by omega),
    List.drop_append_eq_append_drop]
  have h1 : before.length + col - before.length = col := by omega
  have h2 : col - line.length = 0 := by omega
  rw [h1, h2]
  simp

theorem lineStart_decomp (t before line after : List Char) (col : Nat)
    (hL : LineAt t before line after) (hcol : col ≤ line.length) :
    lineStart t (before.length + col) = before.length := by
  unfold lineStart
  rw [take_decomp t before line after col hL.eq hcol, List.reverse_append]
  have hall : ∀ x ∈ (line.take col).reverse, (decide (x ≠ '\n')) = true := by
    intro x hx
    have hxl : x ∈ line := List.mem_of_mem_take (List.mem_reverse.mp hx)
    simp only [decide_eq_true_eq]
    intro heq
    exact hL.line_nl (heq ▸ hxl)
  rw [dropWhile_append_of_forall _ _ _ hall]
  rcases hL.before_nl with rfl | ⟨b, rfl⟩
  · simp
  · simp [List.dropWhile_cons]

theorem lineEnd_decomp (t before line after : List Char) (col : Nat)
    (hL : LineAt t before line after) (hcol : col ≤ line.length) :
    lineEnd t (before.length + col) = before.length + line.length := by
  unfold lineEnd
  rw [drop_decomp t before line after col hL.eq hcol]
  have hall : ∀ x ∈ line.drop col, (decide (x ≠ '\n')) = true := by
    intro x hx
    have hxl : x ∈ line := List.mem_of_mem_drop hx
    simp only [decide_eq_true_eq]
    intro heq
    exact hL.line_nl (heq ▸ hxl)
  rw [takeWhile_append_of_forall _ _ _ hall]
  have hTW : after.takeWhile (fun c => decide (c ≠ '\n')) = [] := by
    rcases hL.after_nl with rfl | ⟨a, rfl⟩
    · rfl
    · simp [List.takeWhile_cons]
  rw [hTW]
  simp
  omega

/-- The leading indentation of the line at `before.length` is the leading
indentation of `line` itself. -/
theorem indent_decomp (t before line after : List Char)
    (hL : LineAt t before line after) :
    (t.drop before.length).takeWhile isIndentChar
      = line.takeWhile isIndentChar := by
  have h0 : t.drop (before.length + 0) = line.drop 0 ++ after :=
    drop_decomp t before line after 0 hL.eq (by omega)
  simp only [Nat.add_zero, List.drop_zero] at h0
  rw [h0]
  apply takeWhile_append_stops
  rcases hL.after_nl with rfl | ⟨a, rfl⟩
  · exact Or.inl rfl
  · exact Or.inr ⟨'\n', a, rfl, by decide⟩

/-- Length of the leading indentation of a line. -/
def indentLen (line : List Char) : Nat := (line.takeWhile isIndentChar).length

theorem indentLen_le (line : List Char) : indentLen line ≤ line.length :=
  (List.takeWhile_sublist isIndentChar).length_le

/-- Full characterization of `editExtract` on a cursor sitting at column
`col` of the line `line`: the tracked range becomes the selection from the
end of the indentation to the end of the line, the scratch document holds
the line with its indentation removed, the caret sits at `col` minus the
indentation length (floored at zero), and the highlighter state is the one
captured at the start of the line. -/
theorem editExtract_spec {σ : Type} (stateFn : List Char → Nat → σ)
    (t before line after : List Char) (col a : Nat)
    (hL : LineAt t before line after) (hcol : col ≤ line.length) :
    editExtract stateFn t ⟨before.length + col, a⟩ =
      { range := ⟨before.length + line.length,
                  before.length + indentLen line⟩,
        scratch := ⟨line.drop (indentLen line),
                    (max 0 ((col : Int) - (indentLen line : Int))).toNat⟩,
        hlState := stateFn t before.length } := by
  have hls : lineStart t (before.length + col) = before.length :=
    lineStart_decomp t before line after col hL hcol
  have hk : indentLen line ≤ line.length := indentLen_le line
  have hls2 : lineStart t (before.length + indentLen line) = before.length :=
    lineStart_decomp t before line after (indentLen line) hL hk
  have hle : lineEnd t (before.length + indentLen line)
      = before.length + line.length :=
    lineEnd_decomp t before line after (indentLen line) hL hk
  have htake : t.take (before.length + line.length) = before ++ line := by
    have := take_decomp t before line after line.length hL.eq le_rfl
    simpa using this
  have hmin : min (before.length + line.length)
      (before.length + indentLen line) = before.length + indentLen line := by
    omega
  have hmax : max (before.length + line.length)
      (before.length + indentLen line) = before.length + line.length := by
    omega
  have hdrop : (before ++ line).drop (before.length + indentLen line)
      = line.drop (indentLen line) := by
    rw [List.drop_append_eq_append_drop, List.drop_of_length_le (by omega),
      Nat.add_sub_cancel_left]
    simp
  simp only [editExtract, strip_indent, moveEndOfBlockKeepAnchor,
    tokeniter_state, Cursor.blockPosition, selectionText, Cursor.selStart,
    Cursor.selEnd, hls]
  rw [indent_decomp t before line after hL]
  have hIL : (List.takeWhile isIndentChar line).length = indentLen line := rfl
  simp only [hIL, hls, hls2, hle, Nat.add_sub_cancel_left, hmin, hmax,
    htake, hdrop]

/-! ### Claims -/

/-- C1: for every line `L` of the host document with leading indentation of
length `k` and a cursor whose offset within the line is `col`, after
`Dialog.edit(cursor)` the scratch document's text equals `L` with its
leading indentation removed, and the scratch caret offset equals
`max 0 (col - k)`. -/
theorem edit_scratch_text_and_caret {σ : Type}
    (stateFn : List Char → Nat → σ) (t before line after : List Char)
    (col a : Nat) (hL : LineAt t before line after)
    (hcol : col ≤ line.length) :
    (editExtract stateFn t ⟨before.length + col, a⟩).scratch.text
        = line.drop (indentLen line) ∧
    ((editExtract stateFn t ⟨before.length + col, a⟩).scratch.caret : Int)
        = max 0 ((col : Int) - (indentLen line : Int)) := by
  rw [editExtract_spec stateFn t before line after col a hL hcol]
  exact ⟨rfl, Int.toNat_of_nonneg (le_max_left 0 _)⟩

theorem edit_scratch_text_and_caret_witness :
    (editExtract (fun _t _p => (0 : Nat)) "  ab\ncd".data
        ⟨"".data.length + 3, 3⟩).scratch.text = "ab".data ∧
    ((editExtract (fun _t _p => (0 : Nat)) "  ab\ncd".data
        ⟨"".data.length + 3, 3⟩).scratch.caret : Int)
        = max 0 ((3 : Int) - (2 : Int)) := by
  have h := edit_scratch_text_and_caret (fun _t _p => (0 : Nat))
    "  ab\ncd".data "".data "  ab".data "\ncd".data 3 3
    ⟨by decide, Or.inl rfl, by decide, Or.inr ⟨"cd".data, rfl⟩⟩ (by decide)
  exact ⟨by rw [h.1]; decide, by rw [h.2]; decide⟩

/-- C5: `popup(position)` first centers the dialog's geometry on the
position (the horizontal placement and size stay those of the centered
rectangle); then, if `position.y ≤ height + 60`, it places the top edge at
`position.y + 60`, and otherwise it places the bottom edge at
`position.y - 60`. -/
theorem popup_geometry_placement (r : QRect) (p : QPoint) :
    (Dialog.popup r p).left = (r.moveCenter p).left ∧
    (Dialog.popup r p).width = r.width ∧
    (Dialog.popup r p).height = r.height ∧
    (p.y ≤ r.height + 60 → (Dialog.popup r p).top = p.y + 60) ∧
    (r.height + 60 < p.y →
        (Dialog.popup r p).bottom = p.y - 60) := by
  unfold Dialog.popup QRect.moveCenter QRect.moveTop QRect.moveBottom
  unfold QRect.bottom
  by_cases h : p.y ≤ r.height + 60
  · simp only [if_pos h]
    refine ⟨trivial, trivial, trivial, fun _ => trivial,
      fun hlt => absurd h (by omega)⟩
  · simp only [if_neg h]
    refine ⟨trivial, trivial, trivial, fun hle => absurd hle h,
      fun _ => by omega⟩

theorem popup_geometry_placement_witness :
    (Dialog.popup ⟨0, 0, 100, 50⟩ ⟨200, 80⟩).top = 80 + 60 ∧
    (Dialog.popup ⟨0, 0, 100, 50⟩ ⟨200, 300⟩).bottom = 300 - 60 :=
  ⟨(popup_geometry_placement ⟨0, 0, 100, 50⟩ ⟨200, 80⟩).2.2.2.1 (by decide),
   (popup_geometry_placement ⟨0, 0, 100, 50⟩ ⟨200, 300⟩).2.2.2.2 (by decide)⟩

/-- C9: for every event matching the `InsertLineSeparator` key combination,
`View.event` returns `False` and leaves the scratch document untouched (no
paragraph/line-separator is inserted); every other event is handled by the
standard plain-text edit surface. -/
theorem view_event_suppresses_line_separator {ε : Type}
    (matchesILS : ε → Bool) (superEvent : ε → Scratch → Bool × Scratch)
    (ev : ε) (st : Scratch) :
    (matchesILS ev = true →
        View.event matchesILS superEvent ev st = (false, st)) ∧
    (matchesILS ev = false →
        View.event matchesILS superEvent ev st = superEvent ev st) := by
  unfold View.event
  constructor <;> intro h <;> simp [h]

theorem view_event_suppresses_line_separator_witness :
    View.event (fun b => b) (fun _ s => (true, s)) true ⟨"x".data, 0⟩
      = (false, ⟨"x".data, 0⟩) :=
  (view_event_suppresses_line_separator (fun b => b) (fun _ s => (true, s))
    true ⟨"x".data, 0⟩).1 rfl

/-- C2: `edit(cursor)` followed immediately by `save()` with no user edits
leaves the host document's content unchanged up to re-running the
indentation normalization on the committed span: the text handed to
`re_indent` is exactly the original text, and the committed span runs from
the original range start (end of the stripped indentation) to the adjusted
insertion end (end of the line). -/
theorem edit_then_save_roundtrip {σ : Type}
    (stateFn : List Char → Nat → σ)
    (re_indent : List Char → Nat → Nat → List Char)
    (t before line after : List Char) (col a : Nat)
    (hL : LineAt t before line after) (hcol : col ≤ line.length) :
    saveText re_indent
        (editExtract stateFn t ⟨before.length + col, a⟩).range
        (editExtract stateFn t ⟨before.length + col, a⟩).scratch.text t
      = re_indent t (before.length + indentLen line)
          (before.length + line.length) := by
  rw [editExtract_spec stateFn t before line after col a hL hcol]
  have hk : indentLen line ≤ line.length := indentLen_le line
  have htk : t.take (before.length + indentLen line)
      = before ++ line.take (indentLen line) :=
    take_decomp t before line after (indentLen line) hL.eq hk
  have htd : t.drop (before.length + line.length) = after := by
    have h := drop_decomp t before line after line.length hL.eq le_rfl
    simpa [List.drop_length] using h
  have hmin : min (before.length + line.length)
      (before.length + indentLen line) = before.length + indentLen line := by
    omega
  have hmax : max (before.length + line.length)
      (before.length + indentLen line) = before.length + line.length := by
    omega
  simp only [saveText, insert_text, Cursor.selStart, Cursor.selEnd,
    hmin, hmax, htk, htd, List.length_drop]
  have hspan : min (before.length + indentLen line)
        (before.length + indentLen line + (line.length - indentLen line))
      = before.length + indentLen line := by omega
  have hspan2 : max (before.length + indentLen line)
        (before.length + indentLen line + (line.length - indentLen line))
      = before.length + line.length := by omega
  simp only [hspan, hspan2]
  congr 1
  calc (before ++ line.take (indentLen line))
        ++ line.drop (indentLen line) ++ after
      = before ++ (line.take (indentLen line)
          ++ line.drop (indentLen line)) ++ after := by
        simp [List.append_assoc]
    _ = before ++ line ++ after := by rw [List.take_append_drop]
    _ = t := hL.eq

theorem edit_then_save_roundtrip_witness :
    saveText (fun u _ _ => u)
        (editExtract (fun _t _p => (0 : Nat)) "  ab\ncd".data
          ⟨"".data.length + 3, 3⟩).range
        (editExtract (fun _t _p => (0 : Nat)) "  ab\ncd".data
          ⟨"".data.length + 3, 3⟩).scratch.text "  ab\ncd".data
      = "  ab\ncd".data := by
  have h := edit_then_save_roundtrip (fun _t _p => (0 : Nat))
    (fun u _ _ => u) "  ab\ncd".data "".data "  ab".data "\ncd".data 3 3
    ⟨by decide, Or.inl rfl, by decide, Or.inr ⟨"cd".data, rfl⟩⟩ (by decide)
  exact h

/-- C6: on every call to `edit(cursor)` the highlighting state loaded into
the scratch document's highlighter is the tokenizer state captured at the
start of the extracted line in the host document (the line start of the
original cursor's position, which is `before.length`). -/
theorem edit_highlighter_state_at_line_start {σ : Type}
    (stateFn : List Char → Nat → σ) (t before line after : List Char)
    (col a : Nat) (hL : LineAt t before line after)
    (hcol : col ≤ line.length) :
    (editExtract stateFn t ⟨before.length + col, a⟩).hlState
        = stateFn t before.length ∧
    lineStart t (before.length + col) = before.length := by
  rw [editExtract_spec stateFn t before line after col a hL hcol]
  exact ⟨rfl, lineStart_decomp t before line after col hL hcol⟩

theorem edit_highlighter_state_at_line_start_witness :
    (editExtract (fun _t p => p) "xx\n\tab\ncd".data
        ⟨"xx\n".data.length + 2, 5⟩).hlState = 3 := by
  have h := edit_highlighter_state_at_line_start (fun _t p => p)
    "xx\n\tab\ncd".data "xx\n".data "\tab".data "\ncd".data 2 5
    ⟨by decide, Or.inr ⟨"xx".data, rfl⟩, by decide, Or.inr ⟨"cd".data, rfl⟩⟩
    (by decide)
  rw [h.1]
  decide

/-- C8: `save()` performs both the diff-based merge of the scratch text into
the tracked range and the re-indentation of the span from the original range
start to the adjusted insertion end inside one scoped undo-grouping
transaction: exactly one undo entry is pushed, undoing it restores the
pre-save text, and the committed text shows both the merge and the
re-indentation over that span. -/
theorem save_single_undo_step
    (re_indent : List Char → Nat → Nat → List Char) (range : Cursor)
    (scratchText : List Char) (d : UndoDoc) :
    (Dialog.save re_indent range scratchText d).undoStack
        = d.text :: d.undoStack ∧
    undoStep (Dialog.save re_indent range scratchText d)
        = ⟨d.text, d.undoStack⟩ ∧
    (Dialog.save re_indent range scratchText d).text
        = re_indent (d.text.take range.selStart ++ scratchText
              ++ d.text.drop range.selEnd)
            range.selStart (range.selStart + scratchText.length) := by
  refine ⟨rfl, rfl, ?_⟩
  simp only [Dialog.save, compress_undo, saveText, insert_text,
    Cursor.selStart, Cursor.selEnd]
  have h1 : min range.selStart (range.selStart + scratchText.length)
      = range.selStart := by omega
  have h2 : max range.selStart (range.selStart + scratchText.length)
      = range.selStart + scratchText.length := by omega
  simp only [Cursor.selStart, Cursor.selEnd] at h1 h2
  simp only [h1, h2]

/-- C10: `Dialog.edit(cursor)` never mutates the host documents and leaves
the caller's cursor (position and anchor) unchanged: the extraction works on
copies and host-document mutation happens only in `save()`. -/
theorem edit_preserves_host_and_cursor {σ : Type}
    (stateFn : List Char → Nat → σ) (s : Sys σ) (d : Nat)
    (cursor : Cursor) :
    (Dialog.editOn stateFn s d cursor).1.docs = s.docs ∧
    (Dialog.editOn stateFn s d cursor).2 = cursor := by
  unfold Dialog.editOn
  cases h : s.docs d <;> simp

theorem infixOf_middle (u l v : List Char) : InfixOf l (u ++ l ++ v) :=
  ⟨u, v, rfl⟩

/-- C3: if the host document tracked by an open (editing) dialog is closed
externally, the dialog transitions to `rejected`, the close mutates no other
host document, and a subsequent accept is a no-op (`save()` never runs for
that session). -/
theorem host_close_rejects_without_mutation {σ : Type}
    (re_indent : List Char → Nat → Nat → List Char) (s : Sys σ) (d : Nat)
    (hconn : d ∈ s.dlg.connections) (hed : s.dlg.status = .editing) :
    (closeDocument s d).dlg.status = .rejected ∧
    (∀ i, i ≠ d → (closeDocument s d).docs i = s.docs i) ∧
    acceptDialog re_indent (closeDocument s d) = closeDocument s d := by
  have hc : (closeDocument s d).dlg
      = { s.dlg with status := DStatus.rejected } := by
    unfold closeDocument
    simp [hconn, hed]
  refine ⟨by rw [hc], ?_, ?_⟩
  · intro i hi
    unfold closeDocument
    simp [hi]
  · unfold acceptDialog
    rw [hc]
    simp

theorem host_close_rejects_without_mutation_witness :
    (closeDocument
      (⟨fun i => if i = 5 then some ⟨"a", "x".data⟩ else none,
        ⟨some 5, [5], ⟨0, 0⟩, ⟨[], 0⟩, none, .editing⟩⟩ : Sys Nat)
      5).dlg.status = .rejected :=
  (host_close_rejects_without_mutation (fun u _ _ => u)
    ⟨fun i => if i = 5 then some ⟨"a", "x".data⟩ else none,
      ⟨some 5, [5], ⟨0, 0⟩, ⟨[], 0⟩, none, .editing⟩⟩ 5
    (by decide) rfl).1

/-- C4: a second `edit()` on the same dialog instance disconnects the
previous host document's close listener and connects one for the new host
document: after editing first on `d1` and then on `d2`, only `d2`'s close
listener is connected, so closing `d1` leaves the dialog editing while
closing `d2` rejects it. -/
theorem second_edit_retargets_close_listener {σ : Type}
    (stateFn : List Char → Nat → σ) (s s1 s2 : Sys σ) (d1 d2 : Nat)
    (c1 c2 : Cursor)
    (hdoc : s.dlg.document = none) (hcon : s.dlg.connections = [])
    (hst : s.dlg.status = .editing)
    (h1 : (s.docs d1).isSome = true) (h2 : (s.docs d2).isSome = true)
    (hne : d1 ≠ d2)
    (hs1 : s1 = (Dialog.editOn stateFn s d1 c1).1)
    (hs2 : s2 = (Dialog.editOn stateFn s1 d2 c2).1) :
    s1.dlg.connections = [d1] ∧
    s2.dlg.connections = [d2] ∧
    s2.dlg.document = some d2 ∧
    (closeDocument s2 d1).dlg.status = .editing ∧
    (closeDocument s2 d2).dlg.status = .rejected := by
  obtain ⟨doc1, hd1⟩ := Option.isSome_iff_exists.mp h1
  obtain ⟨doc2, hd2⟩ := Option.isSome_iff_exists.mp h2
  have e1 : s1.dlg.connections = [d1] ∧ s1.dlg.document = some d1 ∧
      s1.docs = s.docs ∧ s1.dlg.status = s.dlg.status := by
    subst hs1
    simp [Dialog.editOn, hd1, hdoc, hcon]
  have hd2' : s1.docs d2 = some doc2 := by rw [e1.2.2.1, hd2]
  have e2 : s2.dlg.connections = [d2] ∧ s2.dlg.document = some d2 ∧
      s2.dlg.status = s.dlg.status := by
    subst hs2
    constructor
    · simp [Dialog.editOn, hd2', e1.2.1, e1.1]
    constructor
    · simp [Dialog.editOn, hd2']
    · simp [Dialog.editOn, hd2', e1.2.2.2]
  refine ⟨e1.1, e2.1, e2.2.1, ?_, ?_⟩
  · unfold closeDocument
    have : ¬ (d1 ∈ s2.dlg.connections ∧ s2.dlg.status = DStatus.editing) := by
      rw [e2.1]
      simp [hne]
    simp only [if_neg this]
    rw [e2.2.2, hst]
  · unfold closeDocument
    have : d2 ∈ s2.dlg.connections ∧ s2.dlg.status = DStatus.editing := by
      rw [e2.1, e2.2.2, hst]
      simp
    simp only [if_pos this]

theorem second_edit_retargets_close_listener_witness :
    (closeDocument
      (Dialog.editOn (fun _t _p => (0 : Nat))
        (Dialog.editOn (fun _t _p => (0 : Nat))
          ⟨fun i => if i = 0 then some ⟨"a", "x".data⟩
              else if i = 1 then some ⟨"b", "y".data⟩ else none,
            initialDialog Nat⟩ 0 ⟨0, 0⟩).1 1 ⟨0, 0⟩).1
      0).dlg.status = .editing :=
  (second_edit_retargets_close_listener (fun _t _p => (0 : Nat))
    ⟨fun i => if i = 0 then some ⟨"a", "x".data⟩
        else if i = 1 then some ⟨"b", "y".data⟩ else none,
      initialDialog Nat⟩
    (Dialog.editOn (fun _t _p => (0 : Nat))
      ⟨fun i => if i = 0 then some ⟨"a", "x".data⟩
          else if i = 1 then some ⟨"b", "y".data⟩ else none,
        initialDialog Nat⟩ 0 ⟨0, 0⟩).1
    (Dialog.editOn (fun _t _p => (0 : Nat))
      (Dialog.editOn (fun _t _p => (0 : Nat))
        ⟨fun i => if i = 0 then some ⟨"a", "x".data⟩
            else if i = 1 then some ⟨"b", "y".data⟩ else none,
          initialDialog Nat⟩ 0 ⟨0, 0⟩).1 1 ⟨0, 0⟩).1
    0 1 ⟨0, 0⟩ ⟨0, 0⟩ rfl rfl rfl (by decide) (by decide) (by decide)
    rfl rfl).2.2.2.1

/-- C7: whenever a host document is set, the status message contains the
1-based line number of the tracked range (block number plus one), the host
document's display name, and either the definition label resolved from the
tracked range or, when the lookup fails, the unknown placeholder. -/
theorem updateMessage_contents
    (getDef : List Char → Cursor → Option String)
    (document : Option HostDoc) (range : Cursor) (d : HostDoc)
    (hdoc : document = some d) :
    InfixOf (toString (blockNumber d.text range.position + 1)).data
        (updateMessage getDef document range) ∧
    InfixOf d.name.data (updateMessage getDef document range) ∧
    (∀ v, getDef d.text range = some v → v ≠ "" →
        InfixOf v.data (updateMessage getDef document range)) ∧
    (getDef d.text range = none →
        InfixOf "<unknown>".data (updateMessage getDef document range)) := by
  subst hdoc
  have hmsg : updateMessage getDef (some d) range
      = "Editing line ".data
          ++ (toString (blockNumber d.text range.position + 1)).data
          ++ " of \"".data ++ d.name.data ++ "\" (".data
          ++ variableLabel getDef d.text range ++ ")".data := rfl
  rw [hmsg]
  refine ⟨⟨"Editing line ".data,
      " of \"".data ++ d.name.data ++ "\" (".data
        ++ variableLabel getDef d.text range ++ ")".data,
      by simp [List.append_assoc]⟩,
    ⟨"Editing line ".data
        ++ (toString (blockNumber d.text range.position + 1)).data
        ++ " of \"".data,
      "\" (".data ++ variableLabel getDef d.text range ++ ")".data,
      by simp [List.append_assoc]⟩, ?_, ?_⟩
  · intro v hv hne
    have hvl : variableLabel getDef d.text range = v.data := by
      simp [variableLabel, hv, hne]
    rw [hvl]
    exact ⟨"Editing line ".data
        ++ (toString (blockNumber d.text range.position + 1)).data
        ++ " of \"".data ++ d.name.data ++ "\" (".data,
      ")".data, by simp [List.append_assoc]⟩
  · intro hv
    have hvl : variableLabel getDef d.text range = "<unknown>".data := by
      simp [variableLabel, hv]
    rw [hvl]
    exact ⟨"Editing line ".data
        ++ (toString (blockNumber d.text range.position + 1)).data
        ++ " of \"".data ++ d.name.data ++ "\" (".data,
      ")".data, by simp [List.append_assoc]⟩

theorem updateMessage_contents_witness :
    InfixOf "doc.ly".data
      (updateMessage (fun _ _ => some "music")
        (some ⟨"doc.ly", "  ab\ncd".data⟩) ⟨4, 2⟩) :=
  (updateMessage_contents (fun _ _ => some "music")
    (some ⟨"doc.ly", "  ab\ncd".data⟩) ⟨4, 2⟩
    ⟨"doc.ly", "  ab\ncd".data⟩ rfl).2.1

end EditInPlace
